import Mathlib

/-!
The gRPC arena allocator (src/core/lib/gprpp/arena.cc).

A shallow embedding of `Arena::Create`, `Arena::AllocZone`, `Arena::~Arena`,
`Arena::Destroy` and of the two file-local helpers `_aligned_alloc` and
`_aligned_free`, over an explicit memory state.

* Addresses are natural numbers, `0` is `nullptr`.
* `size_t` values are natural numbers; every `size_t` addition of the source
  is reduced modulo `2 ^ 64`.
* The heap maps the start address of every live block to the object that was
  constructed in it.  Reading through, or releasing, an address that is not
  live is undefined behaviour in C++ and is reported as `Outcome.fault`.
* The platform allocation call (`aligned_alloc` on Linux, `gpr_malloc_aligned`
  elsewhere) is an external collaborator: the values it is going to return are
  given by a script held in the world, and every call and every release is
  appended to a trace.
* The spin lock of `AllocZone` protects two pointer writes; the embedding is
  sequential, the two writes are performed in the order of the source.
-/

namespace grpc_core

/-- An address; `0` is the null pointer. -/
abbrev Ptr := Nat

/-- The number of values of a `size_t`. -/
def SIZE_T_MOD : Nat := 2 ^ 64

/-- Build configuration: whether `GPR_LINUX` is defined, the two alignment
constants of `port_platform.h`, and the two `sizeof` values used by the
file. -/
structure Platform where
  GPR_LINUX : Bool
  GPR_CACHELINE_SIZE : Nat
  GPR_MAX_ALIGNMENT : Nat
  sizeof_Arena : Nat
  sizeof_Zone : Nat
  deriving DecidableEq, Repr

/-- Modelled from the spec: the common body of the two rounding macros of
`src/core/lib/gpr/alloc.h`, which is not among the sources.  Rounding a
`size_t` up to a multiple of `a`; the addition is a `size_t` addition and
wraps modulo `2 ^ 64`, and the result is a `size_t`. -/
def round_up_to (a x : Nat) : Nat :=
  (x + (a - 1)) % SIZE_T_MOD / a * a

/-- Modelled from the spec: the macro `GPR_ROUND_UP_TO_ALIGNMENT_SIZE` of
`src/core/lib/gpr/alloc.h`, which is not among the sources.  The spec calls it
rounding "up to the platform's basic alignment granularity", the max
alignment; the value is a `size_t`. -/
def GPR_ROUND_UP_TO_ALIGNMENT_SIZE (P : Platform) (x : Nat) : Nat :=
  round_up_to P.GPR_MAX_ALIGNMENT x

/-- Modelled from the spec: the macro `GPR_ROUND_UP_TO_CACHELINE_SIZE` of
`src/core/lib/gpr/alloc.h`, which is not among the sources: the same rounding
with the cache-line size as granularity. -/
def GPR_ROUND_UP_TO_CACHELINE_SIZE (P : Platform) (x : Nat) : Nat :=
  round_up_to P.GPR_CACHELINE_SIZE x

/-- Modelled from the spec: `struct Zone` of `arena.h` (not among the
sources), "holds only a back-link to the previously allocated zone". -/
structure Zone where
  prev : Ptr
  deriving DecidableEq, Repr

/-- Modelled from the spec: the data members of `class Arena` of `arena.h`
(not among the sources) that `arena.cc` reads or writes: `total_used_`,
`initial_zone_size_` and `last_zone_`. -/
structure Arena where
  total_used_ : Nat
  initial_zone_size_ : Nat
  last_zone_ : Ptr
  deriving DecidableEq, Repr

/-- The object living in a block. -/
inductive Block where
  | zone (z : Zone)
  | arena (a : Arena)
  deriving DecidableEq, Repr

/-- The live blocks, by start address. -/
abbrev Heap := Ptr → Option Block

/-- What the file does that is visible outside of it. -/
inductive Event where
  | alloc (alignment size : Nat) (result : Ptr)
  | load_total_used (arena : Ptr)
  | read_prev (zone : Ptr)
  | free (block : Ptr)
  deriving DecidableEq, Repr

/-- The memory, the results the platform allocation call is going to give
(an exhausted script is memory exhaustion: the call returns null), and the
trace of the events so far. -/
structure World where
  heap : Heap
  script : List Ptr
  trace : List Event

/-- How a call ends. `aborted` is a failed `GPR_ASSERT`; `fault` is undefined
behaviour (a block that is not live is read or released); `out_of_fuel` only
says that the bound given to the loop of the destructor was too small. -/
inductive Outcome (α : Type) where
  | returned (value : α) (w : World)
  | aborted (w : World)
  | fault (w : World)
  | out_of_fuel (w : World)

/-- The world in which a call ended. -/
def Outcome.world {α : Type} : Outcome α → World
  | .returned _ w => w
  | .aborted w => w
  | .fault w => w
  | .out_of_fuel w => w

/-- The call hit `GPR_ASSERT`. -/
def Outcome.isAborted {α : Type} : Outcome α → Bool
  | .aborted _ => true
  | _ => false

/-- The value a call returned, when it returned. -/
def Outcome.value? {α : Type} : Outcome α → Option α
  | .returned v _ => some v
  | _ => none

/-- Sequencing: the second call runs when the first returned. -/
def Outcome.bind {α β : Type} (r : Outcome α) (f : α → World → Outcome β) : Outcome β :=
  match r with
  | .returned v w => f v w
  | .aborted w => .aborted w
  | .fault w => .fault w
  | .out_of_fuel w => .out_of_fuel w

/-- Appending an event to the trace. -/
def World.log (w : World) (e : Event) : World :=
  ⟨w.heap, w.script, w.trace ++ [e]⟩

/-- Constructing, or overwriting, the object at `p`. -/
def World.store (w : World) (p : Ptr) (b : Block) : World :=
  ⟨fun q => if q = p then some b else w.heap q, w.script, w.trace⟩

/-- The block at `p` is no longer live. -/
def World.release (w : World) (p : Ptr) : World :=
  ⟨fun q => if q = p then none else w.heap q, w.script, w.trace⟩

/-- The size `_aligned_alloc<alignment>(size)` hands to the platform call:
lines 38-47.  On Linux the size is rounded, to the cache line when the
template argument is the cache-line size and to the max alignment otherwise;
elsewhere it is passed as it is. -/
def _aligned_alloc_size (P : Platform) (alignment size : Nat) : Nat :=
  if P.GPR_LINUX then
    if alignment = P.GPR_CACHELINE_SIZE then GPR_ROUND_UP_TO_CACHELINE_SIZE P size
    else GPR_ROUND_UP_TO_ALIGNMENT_SIZE P size
  else size

/-- `template <size_t alignment> static void* _aligned_alloc(size_t size)`:
one platform call, whose result is the next entry of the script. -/
def _aligned_alloc (P : Platform) (alignment size : Nat) (w : World) : Ptr × World :=
  let p := w.script.headD 0
  (p, ⟨w.heap, w.script.tail, w.trace ++ [Event.alloc alignment (_aligned_alloc_size P alignment size) p]⟩)

/-- `static void _aligned_free(void* ptr)`: `free` on Linux, `gpr_free_aligned`
elsewhere.  Releasing what is not a live block is undefined behaviour. -/
def _aligned_free (ptr : Ptr) (w : World) : Outcome Unit :=
  match w.heap ptr with
  | none => .fault w
  | some _ => .returned () ((w.log (Event.free ptr)).release ptr)

/-- The loop of `Arena::~Arena` (lines 60-65), started at `z`; the first
argument bounds the number of iterations. -/
def Arena.dtor_loop : Nat → Ptr → World → Outcome Unit
  | 0, z, w => if z = 0 then .returned () w else .out_of_fuel w
  | fuel + 1, z, w =>
    if z = 0 then .returned () w
    else
      match w.heap z with
      | some (Block.zone zn) =>
        let prev_z := zn.prev
        (_aligned_free z (w.log (Event.read_prev z))).bind
          fun _ w1 => Arena.dtor_loop fuel prev_z w1
      | _ => .fault w

/-- `Arena::~Arena()` on the arena at `this`. -/
def Arena.dtor (fuel : Nat) (this : Ptr) (w : World) : Outcome Unit :=
  match w.heap this with
  | some (Block.arena a) => Arena.dtor_loop fuel a.last_zone_ w
  | _ => .fault w

/-- `size_t Arena::Destroy()` on the arena at `this`. -/
def Arena.Destroy (fuel : Nat) (this : Ptr) (w : World) : Outcome Nat :=
  match w.heap this with
  | some (Block.arena a) =>
    let size := a.total_used_
    ((Arena.dtor fuel this (w.log (Event.load_total_used this))).bind
      fun _ w1 => _aligned_free this w1).bind
      fun _ w2 => .returned size w2
  | _ => .fault w

/-- The constant `alignment` of `Arena::Create` (lines 73-77). -/
def Arena.Create_alignment (P : Platform) : Nat :=
  if P.GPR_CACHELINE_SIZE > P.GPR_MAX_ALIGNMENT ∧
      P.GPR_CACHELINE_SIZE % P.GPR_MAX_ALIGNMENT = 0 then
    P.GPR_CACHELINE_SIZE
  else P.GPR_MAX_ALIGNMENT

/-- The constant `base_size` of `Arena::Create` (lines 69-70). -/
def Arena.base_size (P : Platform) : Nat :=
  GPR_ROUND_UP_TO_ALIGNMENT_SIZE P P.sizeof_Arena

/-- The local `alloc_size` of `Arena::Create` (lines 71-72), the argument of
`_aligned_alloc<alignment>`. -/
def Arena.Create_alloc_size (P : Platform) (initial_size : Nat) : Nat :=
  (Arena.base_size P + GPR_ROUND_UP_TO_ALIGNMENT_SIZE P initial_size) % SIZE_T_MOD

/-- `Arena* Arena::Create(size_t initial_size)`.  The constructor
`Arena(initial_size)` sets `total_used_` to 0 and `initial_zone_size_` to its
argument; `last_zone_` starts null. -/
def Arena.Create (P : Platform) (initial_size : Nat) (w : World) : Outcome Ptr :=
  let initial_size1 := GPR_ROUND_UP_TO_ALIGNMENT_SIZE P initial_size
  let alloc_size := Arena.Create_alloc_size P initial_size
  let r := _aligned_alloc P (Arena.Create_alignment P) alloc_size w
  if r.1 = 0 then .aborted r.2
  else .returned r.1 (r.2.store r.1 (Block.arena ⟨0, initial_size1, 0⟩))

/-- The constant `zone_base_size` of `Arena::AllocZone` (lines 96-97). -/
def Arena.zone_base_size (P : Platform) : Nat :=
  GPR_ROUND_UP_TO_ALIGNMENT_SIZE P P.sizeof_Zone

/-- The local `alloc_size` of `Arena::AllocZone` (line 98). -/
def Arena.AllocZone_alloc_size (P : Platform) (size : Nat) : Nat :=
  (Arena.zone_base_size P + size) % SIZE_T_MOD

/-- `void* Arena::AllocZone(size_t size)` on the arena at `this`.  `Zone()`
leaves a zone with a null `prev`; inside the locked region `z->prev` is set
to `last_zone_` and `last_zone_` to `z`. -/
def Arena.AllocZone (P : Platform) (this : Ptr) (size : Nat) (w : World) : Outcome Ptr :=
  let alloc_size := Arena.AllocZone_alloc_size P size
  let r := _aligned_alloc P P.GPR_MAX_ALIGNMENT alloc_size w
  if r.1 = 0 then .aborted r.2
  else
    let z := r.1
    let w1 := r.2.store z (Block.zone ⟨0⟩)
    match w1.heap this with
    | some (Block.arena a) =>
      let w2 := w1.store z (Block.zone ⟨a.last_zone_⟩)
      let w3 := w2.store this (Block.arena ⟨a.total_used_, a.initial_zone_size_, z⟩)
      .returned (z + Arena.zone_base_size P) w3
    | _ => .fault w1

/-- Calling `AllocZone` once for every size of the list, in order; the
results in call order. -/
def Arena.AllocZone_seq (P : Platform) (this : Ptr) : List Nat → World → Outcome (List Ptr)
  | [], w => .returned [] w
  | s :: ss, w =>
    (Arena.AllocZone P this s w).bind fun p w1 =>
      (Arena.AllocZone_seq P this ss w1).bind fun ps w2 => .returned (p :: ps) w2

/-- The zone chain: `zs` is what is met from `p` along `prev` down to null,
every node a live zone. -/
def Chain (h : Heap) : Ptr → List Ptr → Prop
  | p, [] => p = 0
  | p, z :: rest =>
    p = z ∧ z ≠ 0 ∧
      match h z with
      | some (Block.zone zn) => Chain h zn.prev rest
      | _ => False

instance Chain.decidable (h : Heap) : (p : Ptr) → (zs : List Ptr) → Decidable (Chain h p zs)
  | p, [] => inferInstanceAs (Decidable (p = 0))
  | p, z :: rest =>
    match hz : h z with
    | some (Block.zone zn) =>
      have : Decidable (Chain h zn.prev rest) := Chain.decidable h zn.prev rest
      decidable_of_iff (p = z ∧ z ≠ 0 ∧ Chain h zn.prev rest) (by simp [Chain, hz])
    | some (Block.arena a) => isFalse (by simp [Chain, hz])
    | none => isFalse (by simp [Chain, hz])

/-- The blocks released in a trace, in order. -/
def freed : List Event → List Ptr
  | [] => []
  | Event.free p :: es => p :: freed es
  | _ :: es => freed es

/-- The number of platform allocation calls in a trace. -/
def alloc_calls : List Event → Nat
  | [] => 0
  | Event.alloc _ _ _ :: es => alloc_calls es + 1
  | _ :: es => alloc_calls es

/-- The events of the destructor loop over the chain `zs`. -/
def zone_events (zs : List Ptr) : List Event :=
  zs.flatMap fun z => [Event.read_prev z, Event.free z]

/-- A 64-bit Linux build: 64-byte cache lines, 16-byte max alignment, a
32-byte `Arena` and a one-pointer `Zone`. -/
def linux64 : Platform := ⟨true, 64, 16, 32, 8⟩

/-- The same constants without `GPR_LINUX`. -/
def other64 : Platform := ⟨false, 64, 16, 32, 8⟩

/-- Nothing allocated, the platform call about to return the given
addresses. -/
def World.fresh (script : List Ptr) : World :=
  ⟨fun _ => none, script, []⟩

/-- An arena at 4096 that served 80 bytes and grew twice: the zone at 12288
was created first, the zone at 8192 last. -/
def World.grown : World :=
  ⟨fun p =>
    if p = 4096 then some (Block.arena ⟨80, 64, 8192⟩)
    else if p = 8192 then some (Block.zone ⟨12288⟩)
    else if p = 12288 then some (Block.zone ⟨0⟩)
    else none, [], []⟩

/-- An arena at 4096 with an empty zone chain; the platform call is about to
return the given addresses. -/
def World.young (script : List Ptr) : World :=
  ⟨fun p => if p = 4096 then some (Block.arena ⟨16, 64, 0⟩) else none, script, []⟩

/-! ## Rounding -/

theorem round_up_to_dvd (a x : Nat) : a ∣ round_up_to a x :=
  Nat.dvd_mul_left a _

theorem round_up_to_of_lt (a x : Nat) (h : x + (a - 1) < SIZE_T_MOD) :
    round_up_to a x = (x + (a - 1)) / a * a := by
  unfold round_up_to
  rw [Nat.mod_eq_of_lt h]

theorem le_round_up_to (a x : Nat) (ha : 0 < a) (h : x + (a - 1) < SIZE_T_MOD) :
    x ≤ round_up_to a x := by
  rw [round_up_to_of_lt a x h]
  have h1 := Nat.div_add_mod (x + (a - 1)) a
  have h2 := Nat.mod_lt (x + (a - 1)) ha
  have h3 : (x + (a - 1)) / a * a = a * ((x + (a - 1)) / a) := Nat.mul_comm _ _
  omega

theorem round_up_to_lt_add (a x : Nat) (ha : 0 < a) (h : x + (a - 1) < SIZE_T_MOD) :
    round_up_to a x < x + a := by
  rw [round_up_to_of_lt a x h]
  have h1 := Nat.div_mul_le_self (x + (a - 1)) a
  omega

theorem round_up_to_le_of_dvd (a x m : Nat) (ha : 0 < a) (h : x + (a - 1) < SIZE_T_MOD)
    (hm : a ∣ m) (hx : x ≤ m) : round_up_to a x ≤ m := by
  rw [round_up_to_of_lt a x h]
  obtain ⟨k, rfl⟩ := hm
  rw [Nat.mul_comm a k]
  apply Nat.mul_le_mul_right
  rw [Nat.div_le_iff_le_mul_add_pred ha]
  have : a * k = k * a := Nat.mul_comm _ _
  omega

theorem round_up_to_of_dvd (a x : Nat) (ha : 0 < a) (h : x + (a - 1) < SIZE_T_MOD)
    (hx : a ∣ x) : round_up_to a x = x :=
  Nat.le_antisymm (round_up_to_le_of_dvd a x x ha h hx (Nat.le_refl x)) (le_round_up_to a x ha h)

theorem round_up_to_add (a b x : Nat) (ha : 0 < a) (hb : a ∣ b)
    (h : b + x + (a - 1) < SIZE_T_MOD) :
    round_up_to a (b + x) = b + round_up_to a x := by
  have hx : x + (a - 1) < SIZE_T_MOD := by omega
  rw [round_up_to_of_lt a (b + x) h, round_up_to_of_lt a x hx]
  obtain ⟨k, rfl⟩ := hb
  have e : a * k + x + (a - 1) = x + (a - 1) + a * k := by omega
  rw [e, Nat.add_mul_div_left _ _ ha, Nat.add_mul, Nat.mul_comm k a, Nat.add_comm]

/-! ## The zone chain -/

theorem chain_cons_iff (h : Heap) (p z : Ptr) (rest : List Ptr) :
    Chain h p (z :: rest) ↔
      p = z ∧ z ≠ 0 ∧ ∃ zn, h z = some (Block.zone zn) ∧ Chain h zn.prev rest := by
  constructor
  · intro hc
    simp only [Chain] at hc
    obtain ⟨h1, h2, h3⟩ := hc
    refine ⟨h1, h2, ?_⟩
    cases hz : h z with
    | none => rw [hz] at h3; exact h3.elim
    | some b =>
      cases b with
      | zone zn => rw [hz] at h3; exact ⟨zn, rfl, h3⟩
      | arena a => rw [hz] at h3; exact h3.elim
  · rintro ⟨h1, h2, zn, hz, hc⟩
    simp only [Chain]
    refine ⟨h1, h2, ?_⟩
    rw [hz]
    exact hc

theorem chain_live (h : Heap) :
    ∀ (zs : List Ptr) (p : Ptr), Chain h p zs → ∀ z ∈ zs, z ≠ 0 ∧ ∃ zn, h z = some (Block.zone zn) := by
  intro zs
  induction zs with
  | nil => intro p _ z hz; simp at hz
  | cons y rest ih =>
    intro p hc z hz
    rw [chain_cons_iff] at hc
    obtain ⟨_, hy0, zn, hy, hrest⟩ := hc
    rcases List.mem_cons.mp hz with rfl | hmem
    · exact ⟨hy0, zn, hy⟩
    · exact ih zn.prev hrest z hmem

theorem chain_unique (h : Heap) :
    ∀ (l1 l2 : List Ptr) (p : Ptr), Chain h p l1 → Chain h p l2 → l1 = l2 := by
  intro l1
  induction l1 with
  | nil =>
    intro l2 p h1 h2
    cases l2 with
    | nil => rfl
    | cons y r =>
      rw [chain_cons_iff] at h2
      simp only [Chain] at h1
      obtain ⟨e, hy0, _⟩ := h2
      exact absurd (e.symm.trans h1) hy0
  | cons x r1 ih =>
    intro l2 p h1 h2
    rw [chain_cons_iff] at h1
    obtain ⟨e1, hx0, zn1, hx, hr1⟩ := h1
    cases l2 with
    | nil =>
      simp only [Chain] at h2
      exact absurd (e1.symm.trans h2) hx0
    | cons y r2 =>
      rw [chain_cons_iff] at h2
      obtain ⟨e2, _, zn2, hy, hr2⟩ := h2
      have exy : x = y := e1.symm.trans e2
      subst exy
      rw [hx] at hy
      have ez : zn1 = zn2 := by injection hy with hy; injection hy
      subst ez
      rw [ih r2 zn1.prev hr1 hr2]

theorem chain_suffix (h : Heap) :
    ∀ (l1 : List Ptr) (p z : Ptr) (l2 : List Ptr),
      Chain h p (l1 ++ z :: l2) → Chain h z (z :: l2) := by
  intro l1
  induction l1 with
  | nil =>
    intro p z l2 hc
    rw [List.nil_append, chain_cons_iff] at hc
    rw [chain_cons_iff]
    exact ⟨rfl, hc.2⟩
  | cons x r ih =>
    intro p z l2 hc
    rw [List.cons_append, chain_cons_iff] at hc
    obtain ⟨_, _, zn, _, hr⟩ := hc
    exact ih zn.prev z l2 hr

theorem chain_head_not_mem (h : Heap) (p z : Ptr) (rest : List Ptr)
    (hc : Chain h p (z :: rest)) : z ∉ rest := by
  intro hmem
  obtain ⟨l1, l2, e⟩ := List.append_of_mem hmem
  have h1 : Chain h z (z :: rest) := by
    rw [chain_cons_iff] at hc ⊢
    exact ⟨rfl, hc.2⟩
  have h2 : Chain h z (z :: l2) := by
    rw [chain_cons_iff] at hc
    obtain ⟨_, _, zn, _, hr⟩ := hc
    rw [e] at hr
    exact chain_suffix h l1 zn.prev z l2 hr
  have e2 := chain_unique h _ _ z h1 h2
  have e3 : rest.length = l2.length := by
    injection e2 with _ e2
    rw [e2]
  rw [e] at e3
  simp at e3
  omega

theorem chain_nodup (h : Heap) :
    ∀ (zs : List Ptr) (p : Ptr), Chain h p zs → zs.Nodup := by
  intro zs
  induction zs with
  | nil => intro _ _; exact List.nodup_nil
  | cons z rest ih =>
    intro p hc
    have hn := chain_head_not_mem h p z rest hc
    rw [chain_cons_iff] at hc
    obtain ⟨_, _, zn, _, hr⟩ := hc
    exact List.nodup_cons.mpr ⟨hn, ih zn.prev hr⟩

theorem chain_congr (h h1 : Heap) :
    ∀ (zs : List Ptr) (p : Ptr), (∀ z ∈ zs, h1 z = h z) → Chain h p zs → Chain h1 p zs := by
  intro zs
  induction zs with
  | nil => intro p _ hc; exact hc
  | cons z rest ih =>
    intro p hsame hc
    rw [chain_cons_iff] at hc ⊢
    obtain ⟨e, hz0, zn, hz, hr⟩ := hc
    refine ⟨e, hz0, zn, ?_, ?_⟩
    · rw [hsame z (List.mem_cons_self z rest)]
      exact hz
    · exact ih zn.prev (fun y hy => hsame y (List.mem_cons_of_mem z hy)) hr

/-! ## Teardown -/

theorem zone_events_cons (z : Ptr) (rest : List Ptr) :
    zone_events (z :: rest) = Event.read_prev z :: Event.free z :: zone_events rest := by
  simp [zone_events, List.flatMap_cons]

theorem dtor_loop_chain :
    ∀ (zs : List Ptr) (fuel : Nat) (z : Ptr) (w : World),
      Chain w.heap z zs → zs.length ≤ fuel →
      ∃ w1, Arena.dtor_loop fuel z w = Outcome.returned () w1 ∧
        w1.script = w.script ∧
        w1.trace = w.trace ++ zone_events zs ∧
        ∀ q, w1.heap q = if q ∈ zs then none else w.heap q := by
  intro zs
  induction zs with
  | nil =>
    intro fuel z w hc _
    simp only [Chain] at hc
    subst hc
    refine ⟨w, ?_, rfl, by simp [zone_events], by simp⟩
    cases fuel <;> simp [Arena.dtor_loop]
  | cons y rest ih =>
    intro fuel z w hc hfuel
    have hnot := chain_head_not_mem w.heap z y rest hc
    rw [chain_cons_iff] at hc
    obtain ⟨e, hy0, zn, hy, hr⟩ := hc
    subst e
    cases fuel with
    | zero => simp at hfuel
    | succ fuel =>
      have hlive : (w.log (Event.read_prev z)).heap z = some (Block.zone zn) := hy
      have hfree : _aligned_free z (w.log (Event.read_prev z)) =
          Outcome.returned () (((w.log (Event.read_prev z)).log (Event.free z)).release z) := by
        simp only [_aligned_free, hlive]
      have hr1 : Chain (((w.log (Event.read_prev z)).log (Event.free z)).release z).heap
          zn.prev rest := by
        apply chain_congr w.heap _ rest zn.prev _ hr
        intro x hx
        have : x ≠ z := fun e => hnot (e ▸ hx)
        simp [World.release, World.log, this]
      obtain ⟨w1, hrun, hs, ht, hh⟩ := ih fuel zn.prev _ hr1 (by simpa using hfuel)
      refine ⟨w1, ?_, ?_, ?_, ?_⟩
      · simp only [Arena.dtor_loop, if_neg hy0, hy, hfree, Outcome.bind]
        exact hrun
      · rw [hs]; rfl
      · rw [ht, zone_events_cons]
        simp [World.release, World.log]
      · intro q
        rw [hh q]
        by_cases hq : q = z
        · subst hq
          simp [World.release, World.log]
        · simp [World.release, World.log, hq]

theorem Destroy_chain (w : World) (this : Ptr) (a : Arena) (zs : List Ptr) (fuel : Nat)
    (harena : w.heap this = some (Block.arena a))
    (hchain : Chain w.heap a.last_zone_ zs)
    (hfuel : zs.length ≤ fuel) :
    ∃ w1, Arena.Destroy fuel this w = Outcome.returned a.total_used_ w1 ∧
      w1.script = w.script ∧
      w1.trace = w.trace ++
        (Event.load_total_used this :: (zone_events zs ++ [Event.free this])) ∧
      ∀ q, w1.heap q = if q ∈ zs ++ [this] then none else w.heap q := by
  have hthis : this ∉ zs := by
    intro hmem
    obtain ⟨_, zn, hz⟩ := chain_live w.heap zs a.last_zone_ hchain this hmem
    rw [harena] at hz
    cases hz
  obtain ⟨w1, hrun, hs, ht, hh⟩ :=
    dtor_loop_chain zs fuel a.last_zone_ (w.log (Event.load_total_used this)) hchain hfuel
  have hlive : w1.heap this = some (Block.arena a) := by
    rw [hh this, if_neg hthis]
    exact harena
  refine ⟨(w1.log (Event.free this)).release this, ?_, ?_, ?_, ?_⟩
  · have hd : Arena.dtor fuel this (w.log (Event.load_total_used this)) =
        Outcome.returned () w1 := by
      have : (w.log (Event.load_total_used this)).heap this = some (Block.arena a) := harena
      simp only [Arena.dtor, this]
      exact hrun
    simp only [Arena.Destroy, harena, hd, Outcome.bind, _aligned_free, hlive]
  · simp [World.release, World.log, hs]
  · simp [World.release, World.log, ht]
  · intro q
    by_cases hq : q = this
    · subst hq
      simp [World.release, World.log]
    · simp [World.release, World.log, hq, hh q]

theorem freed_append (l1 l2 : List Event) : freed (l1 ++ l2) = freed l1 ++ freed l2 := by
  induction l1 with
  | nil => rfl
  | cons e r ih => cases e <;> simp [freed, ih]

theorem freed_zone_events (zs : List Ptr) : freed (zone_events zs) = zs := by
  induction zs with
  | nil => rfl
  | cons z r ih => rw [zone_events_cons]; simp [freed, ih]

theorem zone_events_append (l1 l2 : List Ptr) :
    zone_events (l1 ++ l2) = zone_events l1 ++ zone_events l2 := by
  simp [zone_events]

theorem read_prev_mem_zone_events (z : Ptr) (zs : List Ptr) :
    Event.read_prev z ∈ zone_events zs ↔ z ∈ zs := by
  induction zs with
  | nil => simp [zone_events]
  | cons y r ih => rw [zone_events_cons]; simp [ih]

theorem free_mem_zone_events (z : Ptr) (zs : List Ptr) :
    Event.free z ∈ zone_events zs ↔ z ∈ zs := by
  induction zs with
  | nil => simp [zone_events]
  | cons y r ih => rw [zone_events_cons]; simp [ih]

/-! ## Allocation -/

theorem alloc_calls_append (l1 l2 : List Event) :
    alloc_calls (l1 ++ l2) = alloc_calls l1 + alloc_calls l2 := by
  induction l1 with
  | nil => simp [alloc_calls]
  | cons e r ih =>
    cases e <;> simp [alloc_calls, ih]
    omega

theorem Create_alignment_cases (P : Platform) :
    Arena.Create_alignment P = P.GPR_CACHELINE_SIZE ∨
      Arena.Create_alignment P = P.GPR_MAX_ALIGNMENT := by
  unfold Arena.Create_alignment
  split
  · exact Or.inl rfl
  · exact Or.inr rfl

theorem aligned_alloc_size_linux (P : Platform) (al size : Nat)
    (hlinux : P.GPR_LINUX = true)
    (hal : al = P.GPR_CACHELINE_SIZE ∨ al = P.GPR_MAX_ALIGNMENT) :
    _aligned_alloc_size P al size = round_up_to al size := by
  unfold _aligned_alloc_size
  rw [if_pos hlinux]
  by_cases hc : al = P.GPR_CACHELINE_SIZE
  · rw [if_pos hc, hc]; rfl
  · rw [if_neg hc]
    rcases hal with h | h
    · exact absurd h hc
    · rw [h]; rfl

theorem Create_trace (P : Platform) (n : Nat) (w : World) :
    (Arena.Create P n w).world.trace =
      w.trace ++ [Event.alloc (Arena.Create_alignment P)
        (_aligned_alloc_size P (Arena.Create_alignment P) (Arena.Create_alloc_size P n))
        (w.script.headD 0)] := by
  unfold Arena.Create
  simp only [_aligned_alloc]
  split <;> rfl

theorem AllocZone_trace (P : Platform) (this : Ptr) (size : Nat) (w : World) :
    (Arena.AllocZone P this size w).world.trace =
      w.trace ++ [Event.alloc P.GPR_MAX_ALIGNMENT
        (_aligned_alloc_size P P.GPR_MAX_ALIGNMENT (Arena.AllocZone_alloc_size P size))
        (w.script.headD 0)] ∧
    (Arena.AllocZone P this size w).world.script = w.script.tail := by
  unfold Arena.AllocZone
  simp only [_aligned_alloc]
  split
  · exact ⟨rfl, rfl⟩
  · split <;> exact ⟨rfl, rfl⟩

theorem AllocZone_returns (P : Platform) (this : Ptr) (size : Nat) (w : World) (a : Arena)
    (harena : w.heap this = some (Block.arena a))
    (hb0 : w.script.headD 0 ≠ 0) (hbt : w.script.headD 0 ≠ this) :
    ∃ w1, Arena.AllocZone P this size w =
        Outcome.returned (w.script.headD 0 + Arena.zone_base_size P) w1 ∧
      w1.script = w.script.tail ∧
      w1.heap this =
        some (Block.arena ⟨a.total_used_, a.initial_zone_size_, w.script.headD 0⟩) ∧
      w1.heap (w.script.headD 0) = some (Block.zone ⟨a.last_zone_⟩) ∧
      ∀ q, q ≠ this → q ≠ w.script.headD 0 → w1.heap q = w.heap q := by
  have hlook : ((_aligned_alloc P P.GPR_MAX_ALIGNMENT (Arena.AllocZone_alloc_size P size) w).2.store
      (w.script.headD 0) (Block.zone ⟨0⟩)).heap this = some (Block.arena a) := by
    simp only [World.store, _aligned_alloc]
    rw [if_neg (Ne.symm hbt)]
    exact harena
  refine ⟨(((_aligned_alloc P P.GPR_MAX_ALIGNMENT (Arena.AllocZone_alloc_size P size) w).2.store
      (w.script.headD 0) (Block.zone ⟨0⟩)).store (w.script.headD 0)
        (Block.zone ⟨a.last_zone_⟩)).store this
          (Block.arena ⟨a.total_used_, a.initial_zone_size_, w.script.headD 0⟩), ?_, ?_, ?_, ?_, ?_⟩
  · unfold Arena.AllocZone
    simp only [_aligned_alloc] at hlook ⊢
    rw [if_neg hb0]
    simp only [hlook]
  · rfl
  · simp [World.store]
  · simp only [World.store]
    rw [if_neg hbt, if_pos trivial]
  · intro q h1 h2
    simp only [World.store, _aligned_alloc]
    rw [if_neg h1, if_neg h2, if_neg h2]

theorem AllocZone_links (P : Platform) (this : Ptr) (size : Nat) (w : World) (a : Arena)
    (zs : List Ptr) (b : Ptr) (rest : List Ptr)
    (harena : w.heap this = some (Block.arena a))
    (hchain : Chain w.heap a.last_zone_ zs)
    (hscript : w.script = b :: rest) (hb0 : b ≠ 0) (hfresh : w.heap b = none) :
    ∃ w1, Arena.AllocZone P this size w = Outcome.returned (b + Arena.zone_base_size P) w1 ∧
      w1.script = rest ∧
      w1.heap this = some (Block.arena ⟨a.total_used_, a.initial_zone_size_, b⟩) ∧
      w1.heap b = some (Block.zone ⟨a.last_zone_⟩) ∧
      (∀ q, q ≠ this → q ≠ b → w1.heap q = w.heap q) ∧
      Chain w1.heap b (b :: zs) := by
  have hhead : w.script.headD 0 = b := by rw [hscript]; rfl
  have hbt : b ≠ this := by
    intro e
    rw [e, harena] at hfresh
    cases hfresh
  obtain ⟨w1, hrun, hs, h1, h2, h3⟩ :=
    AllocZone_returns P this size w a harena (by rw [hhead]; exact hb0) (by rw [hhead]; exact hbt)
  rw [hhead] at hrun h1 h2 h3
  refine ⟨w1, hrun, ?_, h1, h2, h3, ?_⟩
  · rw [hs, hscript]; rfl
  · rw [chain_cons_iff]
    refine ⟨rfl, hb0, ⟨a.last_zone_⟩, h2, ?_⟩
    apply chain_congr w.heap w1.heap zs a.last_zone_ _ hchain
    intro z hz
    obtain ⟨_, zn, hzl⟩ := chain_live w.heap zs a.last_zone_ hchain z hz
    apply h3
    · intro e
      rw [e, harena] at hzl
      cases hzl
    · intro e
      rw [e, hfresh] at hzl
      cases hzl

theorem AllocZone_seq_chain (P : Platform) (this : Ptr) :
    ∀ (sizes : List Nat) (bs : List Ptr) (w : World) (a : Arena) (zs rest : List Ptr),
      w.heap this = some (Block.arena a) →
      Chain w.heap a.last_zone_ zs →
      w.script = bs ++ rest → bs.length = sizes.length → bs.Nodup →
      (∀ b ∈ bs, b ≠ 0 ∧ w.heap b = none) →
      ∃ w1 a1, Arena.AllocZone_seq P this sizes w =
          Outcome.returned (bs.map fun b => b + Arena.zone_base_size P) w1 ∧
        w1.script = rest ∧
        w1.heap this = some (Block.arena a1) ∧
        Chain w1.heap a1.last_zone_ (bs.reverse ++ zs) := by
  intro sizes
  induction sizes with
  | nil =>
    intro bs w a zs rest harena hchain hscript hlen _ _
    have hbs : bs = [] := List.length_eq_zero.mp hlen
    subst hbs
    exact ⟨w, a, rfl, by simpa using hscript, harena, by simpa using hchain⟩
  | cons s ss ih =>
    intro bs w a zs rest harena hchain hscript hlen hnodup hfresh
    cases bs with
    | nil => simp at hlen
    | cons b bs1 =>
      obtain ⟨hb0, hbfresh⟩ := hfresh b (List.mem_cons_self b bs1)
      obtain ⟨hbnot, hnodup1⟩ := List.nodup_cons.mp hnodup
      obtain ⟨w1, hrun, hs1, harena1, _, hsame, hchain1⟩ :=
        AllocZone_links P this s w a zs b (bs1 ++ rest) harena hchain
          (by rw [hscript]; rfl) hb0 hbfresh
      have hfresh1 : ∀ c ∈ bs1, c ≠ 0 ∧ w1.heap c = none := by
        intro c hc
        obtain ⟨hc0, hcf⟩ := hfresh c (List.mem_cons_of_mem b hc)
        refine ⟨hc0, ?_⟩
        rw [hsame c _ _]
        · exact hcf
        · intro e
          rw [e, harena] at hcf
          cases hcf
        · intro e
          exact hbnot (e ▸ hc)
      obtain ⟨w2, a2, hrun2, hs2, harena2, hchain2⟩ :=
        ih bs1 w1 ⟨a.total_used_, a.initial_zone_size_, b⟩ (b :: zs) rest harena1 hchain1 hs1
          (by simpa using hlen) hnodup1 hfresh1
      refine ⟨w2, a2, ?_, hs2, harena2, ?_⟩
      · simp only [Arena.AllocZone_seq, hrun, Outcome.bind, hrun2, List.map_cons]
      · simpa using hchain2

theorem round_up_to_zero (a : Nat) (ha : 0 < a) : round_up_to a 0 = 0 := by
  unfold round_up_to
  have h1 : (0 + (a - 1)) % SIZE_T_MOD ≤ a - 1 := by
    rw [Nat.zero_add]
    exact Nat.mod_le _ _
  have h2 : (0 + (a - 1)) % SIZE_T_MOD / a = 0 := Nat.div_eq_of_lt (by omega)
  rw [h2, Nat.zero_mul]

theorem round_up_to_lt_mod (a x : Nat) : round_up_to a x < SIZE_T_MOD := by
  unfold round_up_to
  have h1 : (x + (a - 1)) % SIZE_T_MOD < SIZE_T_MOD := Nat.mod_lt _ (by decide)
  have h2 := Nat.div_mul_le_self ((x + (a - 1)) % SIZE_T_MOD) a
  omega

theorem Create_alignment_pos (P : Platform) (hM : 0 < P.GPR_MAX_ALIGNMENT) :
    0 < Arena.Create_alignment P := by
  unfold Arena.Create_alignment
  split
  · rename_i h
    omega
  · exact hM

theorem le_aligned_alloc_size (P : Platform) (al size : Nat) (hal : 0 < al)
    (hcases : al = P.GPR_CACHELINE_SIZE ∨ al = P.GPR_MAX_ALIGNMENT)
    (hno : size + (al - 1) < SIZE_T_MOD) :
    size ≤ _aligned_alloc_size P al size := by
  cases hl : P.GPR_LINUX with
  | true =>
    rw [aligned_alloc_size_linux P al size hl hcases]
    exact le_round_up_to al size hal hno
  | false =>
    unfold _aligned_alloc_size
    rw [hl]
    exact Nat.le_refl size

/-! ## The claims -/

/-- C1: for an arena at `this` whose zone chain, read from `last_zone_` along
`prev`, is `zs` (most recently created zone first), `Arena::Destroy` returns,
and what it passes to the release primitive is exactly `zs` followed by the
arena's own block: `zs.length + 1` blocks, no block twice, all of them no
longer live afterwards.  Every zone's `prev` is read once, immediately before
that zone is released, and not after. -/
theorem C1_Destroy_releases_zones_then_arena (w : World) (this : Ptr) (a : Arena)
    (zs : List Ptr) (fuel : Nat)
    (harena : w.heap this = some (Block.arena a))
    (hchain : Chain w.heap a.last_zone_ zs)
    (hfuel : zs.length ≤ fuel) :
    (Arena.Destroy fuel this w).value? = some a.total_used_ ∧
    ∃ new, (Arena.Destroy fuel this w).world.trace = w.trace ++ new ∧
      freed new = zs ++ [this] ∧
      (freed new).length = zs.length + 1 ∧
      (freed new).Nodup ∧
      (∀ q ∈ freed new, (Arena.Destroy fuel this w).world.heap q = none) ∧
      ∀ z ∈ zs, ∃ pre post, new = pre ++ Event.read_prev z :: Event.free z :: post ∧
        Event.read_prev z ∉ pre ∧ Event.free z ∉ pre ∧
        Event.read_prev z ∉ post ∧ Event.free z ∉ post := by
  obtain ⟨w1, hrun, _, ht, hh⟩ := Destroy_chain w this a zs fuel harena hchain hfuel
  have hthis : this ∉ zs := by
    intro hmem
    obtain ⟨_, zn, hz⟩ := chain_live w.heap zs a.last_zone_ hchain this hmem
    rw [harena] at hz
    cases hz
  have hnodup := chain_nodup w.heap zs a.last_zone_ hchain
  have hfreed : freed (Event.load_total_used this :: (zone_events zs ++ [Event.free this])) =
      zs ++ [this] := by
    simp [freed, freed_append, freed_zone_events]
  rw [hrun]
  refine ⟨rfl, _, ht, hfreed, ?_, ?_, ?_, ?_⟩
  · rw [hfreed]; simp
  · rw [hfreed]
    exact List.Nodup.append hnodup (List.nodup_singleton this) (by simpa using hthis)
  · intro q hq
    rw [hfreed] at hq
    show w1.heap q = none
    rw [hh q, if_pos hq]
  · intro z hz
    obtain ⟨l1, l2, e⟩ := List.append_of_mem hz
    subst e
    have hz1 : z ∉ l1 := fun hm => by
      have := (List.nodup_append.mp hnodup).2.2
      exact this hm (List.mem_cons_self z l2)
    have hz2 : z ∉ l2 := by
      have := (List.nodup_append.mp hnodup).2.1
      exact (List.nodup_cons.mp this).1
    have hzt : z ≠ this := fun e => hthis (e ▸ hz)
    refine ⟨Event.load_total_used this :: zone_events l1,
      zone_events l2 ++ [Event.free this], ?_, ?_, ?_, ?_, ?_⟩
    · rw [zone_events_append, zone_events_cons]; simp
    · simp [read_prev_mem_zone_events, hz1]
    · simp [free_mem_zone_events, hz1]
    · simp [read_prev_mem_zone_events, hz2]
    · simp [free_mem_zone_events, hz2, hzt]

/-- C1 at the arena of `World.grown`: two zones, three blocks released, the
younger zone first and the arena last. -/
theorem C1_Destroy_releases_zones_then_arena_witness :
    Chain World.grown.heap 8192 [8192, 12288] ∧
    (Arena.Destroy 2 4096 World.grown).value? = some 80 ∧
    freed (Arena.Destroy 2 4096 World.grown).world.trace = [8192, 12288, 4096] := by
  have h := C1_Destroy_releases_zones_then_arena World.grown 4096 ⟨80, 64, 8192⟩
    [8192, 12288] 2 (by decide) (by decide) (by decide)
  obtain ⟨h1, new, h2, h3, _⟩ := h
  refine ⟨by decide, h1, ?_⟩
  rw [h2]
  exact h3

/-- C2: `Arena::Destroy` on a well-formed arena returns, and the value is
`total_used_` as it stood when `Destroy` was called, whatever the length of
the zone chain; the counter is loaded first, every release (the zones and the
arena's block) comes after the load, and whenever `Destroy` returns a value
at all it is that one. -/
theorem C2_Destroy_returns_total_used (w : World) (this : Ptr) (a : Arena)
    (zs : List Ptr) (fuel : Nat)
    (harena : w.heap this = some (Block.arena a))
    (hchain : Chain w.heap a.last_zone_ zs)
    (hfuel : zs.length ≤ fuel) :
    (Arena.Destroy fuel this w).value? = some a.total_used_ ∧
    (∃ rest, (Arena.Destroy fuel this w).world.trace =
        w.trace ++ Event.load_total_used this :: rest ∧
      freed rest = zs ++ [this]) ∧
    ∀ (fuel1 : Nat) (v : Nat), (Arena.Destroy fuel1 this w).value? = some v →
      v = a.total_used_ := by
  obtain ⟨w1, hrun, _, ht, _⟩ := Destroy_chain w this a zs fuel harena hchain hfuel
  rw [hrun]
  refine ⟨rfl, ⟨_, ht, by simp [freed_append, freed_zone_events, freed]⟩, ?_⟩
  intro fuel1 v hv
  simp only [Arena.Destroy, harena] at hv
  cases hd : Arena.dtor fuel1 this (w.log (Event.load_total_used this)) with
  | returned u w2 =>
    rw [hd] at hv
    simp only [Outcome.bind] at hv
    cases hf : _aligned_free this w2 with
    | returned u2 w3 =>
      rw [hf] at hv
      simp only [Outcome.value?] at hv
      injection hv with hv
      exact hv.symm
    | aborted w3 => rw [hf] at hv; simp [Outcome.value?] at hv
    | fault w3 => rw [hf] at hv; simp [Outcome.value?] at hv
    | out_of_fuel w3 => rw [hf] at hv; simp [Outcome.value?] at hv
  | aborted w2 => rw [hd] at hv; simp [Outcome.bind, Outcome.value?] at hv
  | fault w2 => rw [hd] at hv; simp [Outcome.bind, Outcome.value?] at hv
  | out_of_fuel w2 => rw [hd] at hv; simp [Outcome.bind, Outcome.value?] at hv

/-- C2 at the arena of `World.grown`, which served 80 bytes. -/
theorem C2_Destroy_returns_total_used_witness :
    World.grown.heap 4096 = some (Block.arena ⟨80, 64, 8192⟩) ∧
    (Arena.Destroy 7 4096 World.grown).value? = some 80 :=
  ⟨by decide, (C2_Destroy_returns_total_used World.grown 4096 ⟨80, 64, 8192⟩
    [8192, 12288] 7 (by decide) (by decide) (by decide)).1⟩

/-- C3: `Arena::Create` and `Arena::AllocZone` each make exactly one platform
allocation call (one event appended to the trace, one script entry consumed);
each aborts exactly when that call returned null; a returned result is never
null; `Create` returns the block it was given, `AllocZone` on a live arena
returns whenever the call gave a block that is not the arena's; and when
`AllocZone` aborts the heap (so `last_zone_` and every `prev`) is as it was. -/
theorem C3_null_allocation_aborts (P : Platform) (this : Ptr) (n : Nat) (w : World) :
    ((Arena.Create P n w).world.trace =
        w.trace ++ [Event.alloc (Arena.Create_alignment P)
          (_aligned_alloc_size P (Arena.Create_alignment P) (Arena.Create_alloc_size P n))
          (w.script.headD 0)] ∧
      (Arena.Create P n w).world.script = w.script.tail ∧
      alloc_calls (Arena.Create P n w).world.trace = alloc_calls w.trace + 1 ∧
      ((Arena.Create P n w).isAborted = true ↔ w.script.headD 0 = 0) ∧
      (w.script.headD 0 ≠ 0 → (Arena.Create P n w).value? = some (w.script.headD 0)) ∧
      (∀ p, (Arena.Create P n w).value? = some p → p ≠ 0)) ∧
    ((Arena.AllocZone P this n w).world.trace =
        w.trace ++ [Event.alloc P.GPR_MAX_ALIGNMENT
          (_aligned_alloc_size P P.GPR_MAX_ALIGNMENT (Arena.AllocZone_alloc_size P n))
          (w.script.headD 0)] ∧
      (Arena.AllocZone P this n w).world.script = w.script.tail ∧
      alloc_calls (Arena.AllocZone P this n w).world.trace = alloc_calls w.trace + 1 ∧
      ((Arena.AllocZone P this n w).isAborted = true ↔ w.script.headD 0 = 0) ∧
      (∀ a, w.heap this = some (Block.arena a) → w.script.headD 0 ≠ 0 →
        w.script.headD 0 ≠ this →
        (Arena.AllocZone P this n w).value? =
          some (w.script.headD 0 + Arena.zone_base_size P)) ∧
      (∀ p, (Arena.AllocZone P this n w).value? = some p → p ≠ 0) ∧
      ((Arena.AllocZone P this n w).isAborted = true →
        (Arena.AllocZone P this n w).world.heap = w.heap)) := by
  constructor
  · have ht : (Arena.Create P n w).world.trace =
        w.trace ++ [Event.alloc (Arena.Create_alignment P)
          (_aligned_alloc_size P (Arena.Create_alignment P) (Arena.Create_alloc_size P n))
          (w.script.headD 0)] := by
      unfold Arena.Create
      simp only [_aligned_alloc]
      split <;> rfl
    refine ⟨ht, ?_, ?_, ?_, ?_, ?_⟩
    · unfold Arena.Create
      simp only [_aligned_alloc]
      split <;> rfl
    · rw [ht, alloc_calls_append]; rfl
    · unfold Arena.Create
      simp only [_aligned_alloc]
      split
      · rename_i h0
        exact ⟨fun _ => h0, fun _ => rfl⟩
      · rename_i h0
        exact ⟨fun h => absurd h (by simp [Outcome.isAborted]), fun h => absurd h h0⟩
    · intro h0
      unfold Arena.Create
      simp only [_aligned_alloc]
      rw [if_neg h0]
      rfl
    · intro p hp
      unfold Arena.Create at hp
      simp only [_aligned_alloc] at hp
      split at hp
      · simp [Outcome.value?] at hp
      · rename_i h0
        simp only [Outcome.value?] at hp
        injection hp with hp
        rw [← hp]
        exact h0
  · obtain ⟨ht, hs⟩ := AllocZone_trace P this n w
    refine ⟨ht, hs, ?_, ?_, ?_, ?_, ?_⟩
    · rw [ht, alloc_calls_append]; rfl
    · unfold Arena.AllocZone
      simp only [_aligned_alloc]
      split
      · rename_i h0
        exact ⟨fun _ => h0, fun _ => rfl⟩
      · rename_i h0
        split <;>
          exact ⟨fun h => absurd h (by simp [Outcome.isAborted]), fun h => absurd h h0⟩
    · intro a harena h0 ht1
      obtain ⟨w1, hrun, _⟩ := AllocZone_returns P this n w a harena h0 ht1
      rw [hrun]
      rfl
    · intro p hp
      unfold Arena.AllocZone at hp
      simp only [_aligned_alloc] at hp
      split at hp
      · simp [Outcome.value?] at hp
      · rename_i h0
        split at hp
        · simp only [Outcome.value?] at hp
          injection hp with hp
          rw [← hp]
          exact fun h => h0 (Nat.eq_zero_of_add_eq_zero_right h)
        · simp [Outcome.value?] at hp
    · intro hab
      unfold Arena.AllocZone at hab ⊢
      simp only [_aligned_alloc] at hab ⊢
      split
      · rfl
      · rename_i h0
        rw [if_neg h0] at hab
        split at hab <;> simp [Outcome.isAborted] at hab

/-- C3 on a 64-bit Linux build, with the platform call out of memory: both
calls abort after one allocation call and leave the heap alone. -/
theorem C3_null_allocation_aborts_witness :
    (Arena.Create linux64 100 (World.young [])).isAborted = true ∧
    (Arena.AllocZone linux64 4096 24 (World.young [])).isAborted = true ∧
    (Arena.AllocZone linux64 4096 24 (World.young [])).world.heap = (World.young []).heap := by
  have h := C3_null_allocation_aborts linux64 4096 24 (World.young [])
  refine ⟨by decide, by decide, h.2.2.2.2.2.2.2 (by decide)⟩

/-- C4: the alignment `AllocZone` asks the platform call for is the max
alignment, and when the address the call returns is a multiple of it, so is
every address `AllocZone` returns, for every size; on a live arena, with a
non-null block that is not the arena's, `AllocZone` does return. -/
theorem C4_AllocZone_result_aligned (P : Platform) (this : Ptr) (size : Nat) (w : World)
    (haligned : P.GPR_MAX_ALIGNMENT ∣ w.script.headD 0) :
    (∃ sz, (Arena.AllocZone P this size w).world.trace =
      w.trace ++ [Event.alloc P.GPR_MAX_ALIGNMENT sz (w.script.headD 0)]) ∧
    (∀ p, (Arena.AllocZone P this size w).value? = some p → P.GPR_MAX_ALIGNMENT ∣ p) ∧
    (∀ a, w.heap this = some (Block.arena a) → w.script.headD 0 ≠ 0 →
      w.script.headD 0 ≠ this →
      ∃ p, (Arena.AllocZone P this size w).value? = some p ∧ P.GPR_MAX_ALIGNMENT ∣ p) := by
  have hzb : P.GPR_MAX_ALIGNMENT ∣ Arena.zone_base_size P :=
    round_up_to_dvd P.GPR_MAX_ALIGNMENT P.sizeof_Zone
  refine ⟨⟨_, (AllocZone_trace P this size w).1⟩, ?_, ?_⟩
  · intro p hp
    unfold Arena.AllocZone at hp
    simp only [_aligned_alloc] at hp
    split at hp
    · simp [Outcome.value?] at hp
    · split at hp
      · simp only [Outcome.value?] at hp
        injection hp with hp
        rw [← hp]
        exact Nat.dvd_add haligned hzb
      · simp [Outcome.value?] at hp
  · intro a harena h0 ht
    obtain ⟨w1, hrun, _⟩ := AllocZone_returns P this size w a harena h0 ht
    rw [hrun]
    exact ⟨_, rfl, Nat.dvd_add haligned hzb⟩

/-- C4 on a 64-bit Linux build: the block at 8192 gives the payload at 8208,
a multiple of 16. -/
theorem C4_AllocZone_result_aligned_witness :
    linux64.GPR_MAX_ALIGNMENT ∣ (World.young [8192]).script.headD 0 ∧
    (Arena.AllocZone linux64 4096 24 (World.young [8192])).value? = some 8208 ∧
    linux64.GPR_MAX_ALIGNMENT ∣ 8208 := by
  have h := C4_AllocZone_result_aligned linux64 4096 24 (World.young [8192]) (by decide)
  exact ⟨by decide, by decide, h.2.1 8208 (by decide)⟩

/-- C6: when the cache-line size and the max alignment are powers of two, the
alignment `Arena::Create` asks for is the larger of the two. -/
theorem C6_Create_alignment_is_max (P : Platform) (i j : Nat)
    (hC : P.GPR_CACHELINE_SIZE = 2 ^ i) (hM : P.GPR_MAX_ALIGNMENT = 2 ^ j)
    (n : Nat) (w : World) :
    Arena.Create_alignment P = max P.GPR_CACHELINE_SIZE P.GPR_MAX_ALIGNMENT ∧
    ∃ sz p, (Arena.Create P n w).world.trace =
      w.trace ++ [Event.alloc (max P.GPR_CACHELINE_SIZE P.GPR_MAX_ALIGNMENT) sz p] := by
  have key : Arena.Create_alignment P = max P.GPR_CACHELINE_SIZE P.GPR_MAX_ALIGNMENT := by
    unfold Arena.Create_alignment
    by_cases hgt : P.GPR_CACHELINE_SIZE > P.GPR_MAX_ALIGNMENT
    · have hji : j < i := by
        rw [hC, hM] at hgt
        exact (Nat.pow_lt_pow_iff_right (by decide)).mp hgt
      have hdvd : P.GPR_MAX_ALIGNMENT ∣ P.GPR_CACHELINE_SIZE := by
        rw [hC, hM]
        exact Nat.pow_dvd_pow 2 (Nat.le_of_lt hji)
      rw [if_pos ⟨hgt, Nat.mod_eq_zero_of_dvd hdvd⟩]
      exact (Nat.max_eq_left (Nat.le_of_lt hgt)).symm
    · have hle : P.GPR_CACHELINE_SIZE ≤ P.GPR_MAX_ALIGNMENT := Nat.le_of_not_gt hgt
      rw [if_neg (fun h => hgt h.1)]
      exact (Nat.max_eq_right hle).symm
  refine ⟨key, _aligned_alloc_size P (Arena.Create_alignment P) (Arena.Create_alloc_size P n),
    w.script.headD 0, ?_⟩
  rw [← key]
  exact Create_trace P n w

/-- C6 on a 64-bit Linux build: 64-byte cache lines and 16-byte max alignment
give 64. -/
theorem C6_Create_alignment_is_max_witness :
    linux64.GPR_CACHELINE_SIZE = 2 ^ 6 ∧ linux64.GPR_MAX_ALIGNMENT = 2 ^ 4 ∧
    Arena.Create_alignment linux64 = 64 :=
  ⟨by decide, by decide,
    (C6_Create_alignment_is_max linux64 6 4 (by decide) (by decide) 0 (World.fresh [])).1⟩

/-- C10: on the Linux branch of `_aligned_alloc`, for the alignment chosen by
`Arena::Create` and for the max alignment used by `Arena::AllocZone`, with
power-of-two constants and no `size_t` overflow in the rounding, the size
passed to C `aligned_alloc` is a multiple of the alignment, is not less than
the requested size, and is the least such number. -/
theorem C10_linux_size_is_least_multiple (P : Platform) (i j : Nat) (al size : Nat) (w : World)
    (hlinux : P.GPR_LINUX = true)
    (hC : P.GPR_CACHELINE_SIZE = 2 ^ i) (hM : P.GPR_MAX_ALIGNMENT = 2 ^ j)
    (hal : al = Arena.Create_alignment P ∨ al = P.GPR_MAX_ALIGNMENT)
    (hno : size + (al - 1) < SIZE_T_MOD) :
    (_aligned_alloc P al size w).2.trace =
      w.trace ++ [Event.alloc al (_aligned_alloc_size P al size) (w.script.headD 0)] ∧
    al ∣ _aligned_alloc_size P al size ∧
    size ≤ _aligned_alloc_size P al size ∧
    ∀ m, al ∣ m → size ≤ m → _aligned_alloc_size P al size ≤ m := by
  have hcases : al = P.GPR_CACHELINE_SIZE ∨ al = P.GPR_MAX_ALIGNMENT := by
    rcases hal with h | h
    · rcases Create_alignment_cases P with h1 | h1
      · exact Or.inl (h.trans h1)
      · exact Or.inr (h.trans h1)
    · exact Or.inr h
  have hpos : 0 < al := by
    rcases hcases with h | h
    · rw [h, hC]; exact Nat.pos_pow_of_pos i (by decide)
    · rw [h, hM]; exact Nat.pos_pow_of_pos j (by decide)
  refine ⟨rfl, ?_⟩
  rw [aligned_alloc_size_linux P al size hlinux hcases]
  exact ⟨round_up_to_dvd al size, le_round_up_to al size hpos hno,
    fun m hm hx => round_up_to_le_of_dvd al size m hpos hno hm hx⟩

/-- C10 on a 64-bit Linux build: `Create` asks for 33 bytes at alignment 64
and C `aligned_alloc` is given 64. -/
theorem C10_linux_size_is_least_multiple_witness :
    linux64.GPR_LINUX = true ∧ 64 = Arena.Create_alignment linux64 ∧
    33 + (64 - 1) < SIZE_T_MOD ∧
    _aligned_alloc_size linux64 64 33 = 64 ∧ 64 ∣ _aligned_alloc_size linux64 64 33 :=
  ⟨by decide, by decide, by decide, by decide,
    (C10_linux_size_is_least_multiple linux64 6 4 64 33 (World.fresh []) (by decide)
      (by decide) (by decide) (Or.inl (by decide)) (by decide)).2.1⟩

/-- C7: a call of `AllocZone` on a live arena whose chain is `zs`, given a
fresh non-null block `b`, returns, leaves `b` a zone whose `prev` is the old
`last_zone_`, sets `last_zone_` to `b`, and the chain becomes `b` followed by
`zs`.  Hence `n` calls on an arena with an empty chain, the platform call
giving `n` distinct fresh blocks `bs`, all return, and the chain read from
`last_zone_` is `bs` reversed: every created zone, the most recent first,
without repetition, of length `n`. -/
theorem C7_zone_chain_invariant (P : Platform) (this : Ptr) :
    (∀ (size : Nat) (w : World) (a : Arena) (zs : List Ptr) (b : Ptr) (rest : List Ptr),
      w.heap this = some (Block.arena a) → Chain w.heap a.last_zone_ zs →
      w.script = b :: rest → b ≠ 0 → w.heap b = none →
      (Arena.AllocZone P this size w).value? = some (b + Arena.zone_base_size P) ∧
      (Arena.AllocZone P this size w).world.heap b = some (Block.zone ⟨a.last_zone_⟩) ∧
      (Arena.AllocZone P this size w).world.heap this =
        some (Block.arena ⟨a.total_used_, a.initial_zone_size_, b⟩) ∧
      Chain (Arena.AllocZone P this size w).world.heap b (b :: zs)) ∧
    (∀ (sizes : List Nat) (w : World) (a : Arena) (bs rest : List Ptr),
      w.heap this = some (Block.arena a) → a.last_zone_ = 0 →
      w.script = bs ++ rest → bs.length = sizes.length → bs.Nodup →
      (∀ b ∈ bs, b ≠ 0 ∧ w.heap b = none) →
      (Arena.AllocZone_seq P this sizes w).value? =
        some (bs.map fun b => b + Arena.zone_base_size P) ∧
      ∃ a1, (Arena.AllocZone_seq P this sizes w).world.heap this = some (Block.arena a1) ∧
        Chain (Arena.AllocZone_seq P this sizes w).world.heap a1.last_zone_ bs.reverse ∧
        bs.reverse.Nodup ∧ bs.reverse.length = sizes.length) := by
  constructor
  · intro size w a zs b rest harena hchain hscript hb0 hfresh
    obtain ⟨w1, hrun, _, h1, h2, _, hc⟩ :=
      AllocZone_links P this size w a zs b rest harena hchain hscript hb0 hfresh
    rw [hrun]
    exact ⟨rfl, h2, h1, hc⟩
  · intro sizes w a bs rest harena hempty hscript hlen hnodup hfresh
    have hchain : Chain w.heap a.last_zone_ [] := hempty
    obtain ⟨w1, a1, hrun, _, harena1, hchain1⟩ :=
      AllocZone_seq_chain P this sizes bs w a [] rest harena hchain hscript hlen hnodup hfresh
    rw [hrun]
    refine ⟨rfl, a1, harena1, by simpa using hchain1, List.nodup_reverse.mpr hnodup, ?_⟩
    rw [List.length_reverse, hlen]

/-- C7 on a 64-bit Linux build: three calls on the arena of `World.young`,
given the blocks 8192, 12288 and 16384, leave the chain 16384, 12288, 8192. -/
theorem C7_zone_chain_invariant_witness :
    (Arena.AllocZone_seq linux64 4096 [64, 24, 8]
        (World.young [8192, 12288, 16384])).value? = some [8208, 12304, 16400] ∧
    ∃ a1, (Arena.AllocZone_seq linux64 4096 [64, 24, 8]
        (World.young [8192, 12288, 16384])).world.heap 4096 = some (Block.arena a1) ∧
      Chain (Arena.AllocZone_seq linux64 4096 [64, 24, 8]
        (World.young [8192, 12288, 16384])).world.heap a1.last_zone_ [16384, 12288, 8192] := by
  obtain ⟨h1, a1, h2, h3, _⟩ :=
    (C7_zone_chain_invariant linux64 4096).2 [64, 24, 8] (World.young [8192, 12288, 16384])
      ⟨16, 64, 0⟩ [8192, 12288, 16384] [] (by decide) (by decide) (by decide) (by decide)
      (by decide) (by decide)
  exact ⟨h1, a1, h2, h3⟩

/-- C5, as stated, fails for large `size_t` hints.  `Create(2^64 - 16)`
builds an arena of capacity `2^64 - 16`, but the sum of line 72 wraps: the
size passed to `_aligned_alloc` is 16, not `32 + (2^64 - 16)`, and the
platform call is asked for 16 bytes (64 on Linux), less than the header
alone.  `Create(2^64 - 1)` builds an arena whose `initial_zone_size_` is 0,
smaller than the hint.  And on Linux the block is not of exactly the size
`Create` computes: `Create(0)` computes the aligned header size 32, and the
Linux branch of `_aligned_alloc` asks C `aligned_alloc` for 64 bytes. -/
theorem C5_Create_capacity_counterexample :
    (2 ^ 64 - 16 < SIZE_T_MOD ∧
      (Arena.Create other64 (2 ^ 64 - 16) (World.fresh [4096])).world.heap 4096 =
        some (Block.arena ⟨0, 2 ^ 64 - 16, 0⟩) ∧
      Arena.Create_alloc_size other64 (2 ^ 64 - 16) = 16 ∧
      Arena.base_size other64 + GPR_ROUND_UP_TO_ALIGNMENT_SIZE other64 (2 ^ 64 - 16) =
        2 ^ 64 + 16 ∧
      (Arena.Create other64 (2 ^ 64 - 16) (World.fresh [4096])).world.trace =
        [Event.alloc 64 16 4096] ∧
      (Arena.Create linux64 (2 ^ 64 - 16) (World.fresh [4096])).world.trace =
        [Event.alloc 64 64 4096]) ∧
    (2 ^ 64 - 1 < SIZE_T_MOD ∧
      (Arena.Create linux64 (2 ^ 64 - 1) (World.fresh [4096])).value? = some 4096 ∧
      (Arena.Create linux64 (2 ^ 64 - 1) (World.fresh [4096])).world.heap 4096 =
        some (Block.arena ⟨0, 0, 0⟩) ∧
      ¬ (2 ^ 64 - 1 ≤ (0 : Nat))) ∧
    (GPR_ROUND_UP_TO_ALIGNMENT_SIZE linux64 linux64.sizeof_Arena = 32 ∧
      (Arena.Create linux64 0 (World.fresh [4096])).world.trace =
        [Event.alloc 64 64 4096]) := by
  decide

/-- C5, amended: when the size computations do not overflow `size_t`,
`Create(h)` given a non-null block returns it with an arena constructed in it
whose `initial_zone_size_` is the least multiple of the max alignment that is
not less than `h`.  Its one platform call asks, where `GPR_LINUX` is not
defined, for exactly `round_up(sizeof(Arena))` plus that capacity bytes, and
on the Linux branch for exactly that number rounded up to the block
alignment, the least multiple of the alignment that is not less than it; so
the block holds the aligned header followed by the whole initial zone.
`Create(0)` builds an arena of capacity 0 and asks for exactly the aligned
header size (on Linux, rounded up to the block alignment). -/
theorem C5_Create_capacity (P : Platform) (h : Nat) (w : World)
    (hM : 0 < P.GPR_MAX_ALIGNMENT)
    (hh : h + (P.GPR_MAX_ALIGNMENT - 1) < SIZE_T_MOD)
    (hsum : GPR_ROUND_UP_TO_ALIGNMENT_SIZE P P.sizeof_Arena +
      GPR_ROUND_UP_TO_ALIGNMENT_SIZE P h + (Arena.Create_alignment P - 1) < SIZE_T_MOD)
    (hb : w.script.headD 0 ≠ 0) :
    ((Arena.Create P h w).value? = some (w.script.headD 0) ∧
      (Arena.Create P h w).world.heap (w.script.headD 0) =
        some (Block.arena ⟨0, GPR_ROUND_UP_TO_ALIGNMENT_SIZE P h, 0⟩) ∧
      (Arena.Create P h w).world.script = w.script.tail) ∧
    (P.GPR_MAX_ALIGNMENT ∣ GPR_ROUND_UP_TO_ALIGNMENT_SIZE P h ∧
      h ≤ GPR_ROUND_UP_TO_ALIGNMENT_SIZE P h ∧
      ∀ m, P.GPR_MAX_ALIGNMENT ∣ m → h ≤ m → GPR_ROUND_UP_TO_ALIGNMENT_SIZE P h ≤ m) ∧
    (P.GPR_LINUX = false →
      (Arena.Create P h w).world.trace =
        w.trace ++ [Event.alloc (Arena.Create_alignment P)
          (GPR_ROUND_UP_TO_ALIGNMENT_SIZE P P.sizeof_Arena +
            GPR_ROUND_UP_TO_ALIGNMENT_SIZE P h) (w.script.headD 0)]) ∧
    (P.GPR_LINUX = true →
      (Arena.Create P h w).world.trace =
        w.trace ++ [Event.alloc (Arena.Create_alignment P)
          (round_up_to (Arena.Create_alignment P)
            (GPR_ROUND_UP_TO_ALIGNMENT_SIZE P P.sizeof_Arena +
              GPR_ROUND_UP_TO_ALIGNMENT_SIZE P h)) (w.script.headD 0)] ∧
      Arena.Create_alignment P ∣ round_up_to (Arena.Create_alignment P)
        (GPR_ROUND_UP_TO_ALIGNMENT_SIZE P P.sizeof_Arena +
          GPR_ROUND_UP_TO_ALIGNMENT_SIZE P h) ∧
      GPR_ROUND_UP_TO_ALIGNMENT_SIZE P P.sizeof_Arena + GPR_ROUND_UP_TO_ALIGNMENT_SIZE P h ≤
        round_up_to (Arena.Create_alignment P)
          (GPR_ROUND_UP_TO_ALIGNMENT_SIZE P P.sizeof_Arena +
            GPR_ROUND_UP_TO_ALIGNMENT_SIZE P h) ∧
      ∀ m, Arena.Create_alignment P ∣ m →
        GPR_ROUND_UP_TO_ALIGNMENT_SIZE P P.sizeof_Arena +
          GPR_ROUND_UP_TO_ALIGNMENT_SIZE P h ≤ m →
        round_up_to (Arena.Create_alignment P)
          (GPR_ROUND_UP_TO_ALIGNMENT_SIZE P P.sizeof_Arena +
            GPR_ROUND_UP_TO_ALIGNMENT_SIZE P h) ≤ m) ∧
    ((Arena.Create P 0 w).value? = some (w.script.headD 0) ∧
      (Arena.Create P 0 w).world.heap (w.script.headD 0) = some (Block.arena ⟨0, 0, 0⟩) ∧
      (P.GPR_LINUX = false →
        (Arena.Create P 0 w).world.trace =
          w.trace ++ [Event.alloc (Arena.Create_alignment P)
            (GPR_ROUND_UP_TO_ALIGNMENT_SIZE P P.sizeof_Arena) (w.script.headD 0)]) ∧
      (P.GPR_LINUX = true →
        (Arena.Create P 0 w).world.trace =
          w.trace ++ [Event.alloc (Arena.Create_alignment P)
            (round_up_to (Arena.Create_alignment P)
              (GPR_ROUND_UP_TO_ALIGNMENT_SIZE P P.sizeof_Arena)) (w.script.headD 0)])) := by
  have hal := Create_alignment_pos P hM
  have hsize : Arena.Create_alloc_size P h =
      GPR_ROUND_UP_TO_ALIGNMENT_SIZE P P.sizeof_Arena + GPR_ROUND_UP_TO_ALIGNMENT_SIZE P h := by
    unfold Arena.Create_alloc_size Arena.base_size
    exact Nat.mod_eq_of_lt (by omega)
  have h0 : GPR_ROUND_UP_TO_ALIGNMENT_SIZE P 0 = 0 := round_up_to_zero _ hM
  have hsize0 : Arena.Create_alloc_size P 0 =
      GPR_ROUND_UP_TO_ALIGNMENT_SIZE P P.sizeof_Arena := by
    unfold Arena.Create_alloc_size Arena.base_size
    rw [h0, Nat.add_zero]
    exact Nat.mod_eq_of_lt (round_up_to_lt_mod _ _)
  have hoth : ∀ x, P.GPR_LINUX = false →
      _aligned_alloc_size P (Arena.Create_alignment P) x = x := by
    intro x hl
    unfold _aligned_alloc_size
    rw [hl]
    rfl
  have hlin : ∀ x, P.GPR_LINUX = true →
      _aligned_alloc_size P (Arena.Create_alignment P) x =
        round_up_to (Arena.Create_alignment P) x :=
    fun x hl => aligned_alloc_size_linux P _ x hl (Create_alignment_cases P)
  have hval : ∀ k, (Arena.Create P k w).value? = some (w.script.headD 0) := by
    intro k
    unfold Arena.Create
    simp only [_aligned_alloc]
    rw [if_neg hb]
    rfl
  have hheap : ∀ k, (Arena.Create P k w).world.heap (w.script.headD 0) =
      some (Block.arena ⟨0, GPR_ROUND_UP_TO_ALIGNMENT_SIZE P k, 0⟩) := by
    intro k
    unfold Arena.Create
    simp only [_aligned_alloc]
    rw [if_neg hb]
    simp only [Outcome.world, World.store]
    rw [if_pos trivial]
  have ht := Create_trace P h w
  rw [hsize] at ht
  have ht0 := Create_trace P 0 w
  rw [hsize0] at ht0
  refine ⟨⟨hval h, hheap h, ?_⟩, ⟨round_up_to_dvd _ _, le_round_up_to _ _ hM hh,
    fun m hm hx => round_up_to_le_of_dvd _ _ m hM hh hm hx⟩, fun hl => ?_, fun hl => ?_,
    hval 0, ?_, fun hl => ?_, fun hl => ?_⟩
  · unfold Arena.Create
    simp only [_aligned_alloc]
    split <;> rfl
  · rw [ht, hoth _ hl]
  · refine ⟨?_, round_up_to_dvd _ _, le_round_up_to _ _ hal hsum,
      fun m hm hx => round_up_to_le_of_dvd _ _ m hal hsum hm hx⟩
    rw [ht, hlin _ hl]
  · have := hheap 0
    rw [h0] at this
    exact this
  · rw [ht0, hoth _ hl]
  · rw [ht0, hlin _ hl]

/-- C5 amended, on a 64-bit Linux build: a hint of 100 bytes gives a capacity
of 112 bytes, and C `aligned_alloc` is asked for 32 + 112 = 144 bytes rounded
up to the 64-byte alignment, 192 bytes. -/
theorem C5_Create_capacity_witness :
    100 + (linux64.GPR_MAX_ALIGNMENT - 1) < SIZE_T_MOD ∧
    (Arena.Create linux64 100 (World.fresh [4096])).value? = some 4096 ∧
    (Arena.Create linux64 100 (World.fresh [4096])).world.heap 4096 =
      some (Block.arena ⟨0, 112, 0⟩) ∧
    (Arena.Create linux64 100 (World.fresh [4096])).world.trace =
      [Event.alloc 64 192 4096] := by
  have h := C5_Create_capacity linux64 100 (World.fresh [4096]) (by decide) (by decide)
    (by decide) (by decide)
  exact ⟨by decide, h.1.1, h.1.2.1, (h.2.2.2.1 (by decide)).1⟩

/-- C8, as stated, fails where `GPR_LINUX` is not defined: `AllocZone(1)`
asks `gpr_malloc_aligned` for 17 bytes, while
`round_up(sizeof(Zone)) + round_up(1)` is 32.  It also fails on Linux when
the sum overflows: `AllocZone(2^64 - 16)` asks `aligned_alloc` for 0 bytes. -/
theorem C8_AllocZone_request_counterexample :
    (Arena.AllocZone other64 4096 1 (World.young [8192])).world.trace =
      [Event.alloc 16 17 8192] ∧
    Arena.zone_base_size other64 + GPR_ROUND_UP_TO_ALIGNMENT_SIZE other64 1 = 32 ∧
    (Arena.AllocZone linux64 4096 (2 ^ 64 - 16) (World.young [8192])).world.trace =
      [Event.alloc 16 0 8192] ∧
    Arena.zone_base_size linux64 + GPR_ROUND_UP_TO_ALIGNMENT_SIZE linux64 (2 ^ 64 - 16) =
      2 ^ 64 := by
  decide

/-- C8, amended: when `round_up(sizeof(Zone)) + s` rounds up without
overflowing `size_t`, the one platform call of `AllocZone(s)` asks for the
max alignment and, on the Linux branch, for exactly
`round_up(sizeof(Zone)) + round_up(s)` bytes; elsewhere it asks for
`round_up(sizeof(Zone)) + s` bytes, which is the same number whenever `s` is
a multiple of the max alignment. -/
theorem C8_AllocZone_request (P : Platform) (this : Ptr) (s : Nat) (w : World)
    (hM : 0 < P.GPR_MAX_ALIGNMENT)
    (hno : Arena.zone_base_size P + s + (P.GPR_MAX_ALIGNMENT - 1) < SIZE_T_MOD) :
    (P.GPR_LINUX = true →
      (Arena.AllocZone P this s w).world.trace =
        w.trace ++ [Event.alloc P.GPR_MAX_ALIGNMENT
          (Arena.zone_base_size P + GPR_ROUND_UP_TO_ALIGNMENT_SIZE P s) (w.script.headD 0)]) ∧
    (P.GPR_LINUX = false →
      (Arena.AllocZone P this s w).world.trace =
        w.trace ++ [Event.alloc P.GPR_MAX_ALIGNMENT
          (Arena.zone_base_size P + s) (w.script.headD 0)]) ∧
    (P.GPR_MAX_ALIGNMENT ∣ s →
      (Arena.AllocZone P this s w).world.trace =
        w.trace ++ [Event.alloc P.GPR_MAX_ALIGNMENT
          (Arena.zone_base_size P + GPR_ROUND_UP_TO_ALIGNMENT_SIZE P s) (w.script.headD 0)]) := by
  have hzb : P.GPR_MAX_ALIGNMENT ∣ Arena.zone_base_size P :=
    round_up_to_dvd P.GPR_MAX_ALIGNMENT P.sizeof_Zone
  have hsize : Arena.AllocZone_alloc_size P s = Arena.zone_base_size P + s := by
    unfold Arena.AllocZone_alloc_size
    exact Nat.mod_eq_of_lt (by omega)
  have hlin : P.GPR_LINUX = true →
      _aligned_alloc_size P P.GPR_MAX_ALIGNMENT (Arena.zone_base_size P + s) =
        Arena.zone_base_size P + GPR_ROUND_UP_TO_ALIGNMENT_SIZE P s := by
    intro hl
    rw [aligned_alloc_size_linux P _ _ hl (Or.inr rfl)]
    exact round_up_to_add _ _ _ hM hzb hno
  have hoth : P.GPR_LINUX = false →
      _aligned_alloc_size P P.GPR_MAX_ALIGNMENT (Arena.zone_base_size P + s) =
        Arena.zone_base_size P + s := by
    intro hl
    unfold _aligned_alloc_size
    rw [hl]
    rfl
  have ht := (AllocZone_trace P this s w).1
  rw [hsize] at ht
  refine ⟨fun hl => ?_, fun hl => ?_, fun hs => ?_⟩
  · rw [ht, hlin hl]
  · rw [ht, hoth hl]
  · cases hl : P.GPR_LINUX with
    | true => rw [ht, hlin hl]
    | false =>
      have e : GPR_ROUND_UP_TO_ALIGNMENT_SIZE P s = s :=
        round_up_to_of_dvd _ _ hM (by omega) hs
      rw [ht, hoth hl, e]

/-- C8 amended, on a 64-bit Linux build: `AllocZone(24)` asks for 16 + 32
bytes at alignment 16. -/
theorem C8_AllocZone_request_witness :
    Arena.zone_base_size linux64 + 24 + (linux64.GPR_MAX_ALIGNMENT - 1) < SIZE_T_MOD ∧
    (Arena.AllocZone linux64 4096 24 (World.young [8192])).world.trace =
      [Event.alloc 16 48 8192] :=
  ⟨by decide, (C8_AllocZone_request linux64 4096 24 (World.young [8192]) (by decide)
    (by decide)).1 (by decide)⟩

/-- C9, as stated, fails for large `size_t` sizes, where the sum of line 98
wraps.  `AllocZone(2^64 - 16)` asks the platform call for 0 bytes on either
branch; given a block at 8192 it returns 8208, so neither the zone header nor
one byte of the range handed out lies inside a block of the requested
length.  On Linux `AllocZone(2^64 - 1)` asks for 16 bytes and returns the end
of that block. -/
theorem C9_AllocZone_payload_counterexample :
    (2 ^ 64 - 16 < SIZE_T_MOD ∧
      (Arena.AllocZone other64 4096 (2 ^ 64 - 16) (World.young [8192])).world.trace =
        [Event.alloc 16 0 8192] ∧
      (Arena.AllocZone linux64 4096 (2 ^ 64 - 16) (World.young [8192])).world.trace =
        [Event.alloc 16 0 8192] ∧
      (Arena.AllocZone linux64 4096 (2 ^ 64 - 16) (World.young [8192])).value? = some 8208 ∧
      ¬ (8208 + (2 ^ 64 - 16) ≤ 8192 + 0)) ∧
    (2 ^ 64 - 1 < SIZE_T_MOD ∧
      (Arena.AllocZone linux64 4096 (2 ^ 64 - 1) (World.young [8192])).world.trace =
        [Event.alloc 16 16 8192] ∧
      (Arena.AllocZone linux64 4096 (2 ^ 64 - 1) (World.young [8192])).value? = some 8208 ∧
      ¬ (8208 + (2 ^ 64 - 1) ≤ 8192 + 16)) := by
  decide

/-- C9, amended: when `round_up(sizeof(Zone)) + s` rounds up without
overflowing `size_t`, `AllocZone(s)` on a live arena, given a non-null block
at `b` that is not the arena's, returns `b + round_up(sizeof(Zone))`; for
every block length `n` not less than the size the platform call was asked
for, the range of `s` bytes from the result lies inside `[b, b + n)`, and it
starts at or after the end `b + sizeof(Zone)` of the zone header. -/
theorem C9_AllocZone_payload (P : Platform) (this : Ptr) (s : Nat) (w : World) (a : Arena)
    (n : Nat)
    (harena : w.heap this = some (Block.arena a))
    (hb0 : w.script.headD 0 ≠ 0) (hbt : w.script.headD 0 ≠ this)
    (hM : 0 < P.GPR_MAX_ALIGNMENT)
    (hZ : P.sizeof_Zone + (P.GPR_MAX_ALIGNMENT - 1) < SIZE_T_MOD)
    (hno : Arena.zone_base_size P + s + (P.GPR_MAX_ALIGNMENT - 1) < SIZE_T_MOD)
    (hn : _aligned_alloc_size P P.GPR_MAX_ALIGNMENT (Arena.AllocZone_alloc_size P s) ≤ n) :
    (Arena.AllocZone P this s w).value? =
      some (w.script.headD 0 + Arena.zone_base_size P) ∧
    (Arena.AllocZone P this s w).world.trace =
      w.trace ++ [Event.alloc P.GPR_MAX_ALIGNMENT
        (_aligned_alloc_size P P.GPR_MAX_ALIGNMENT (Arena.AllocZone_alloc_size P s))
        (w.script.headD 0)] ∧
    w.script.headD 0 ≤ w.script.headD 0 + Arena.zone_base_size P ∧
    w.script.headD 0 + Arena.zone_base_size P + s ≤ w.script.headD 0 + n ∧
    w.script.headD 0 + P.sizeof_Zone ≤ w.script.headD 0 + Arena.zone_base_size P := by
  obtain ⟨w1, hrun, _⟩ := AllocZone_returns P this s w a harena hb0 hbt
  have hsize : Arena.AllocZone_alloc_size P s = Arena.zone_base_size P + s := by
    unfold Arena.AllocZone_alloc_size
    exact Nat.mod_eq_of_lt (by omega)
  have hreq := le_aligned_alloc_size P P.GPR_MAX_ALIGNMENT (Arena.zone_base_size P + s) hM
    (Or.inr rfl) hno
  have hhdr : P.sizeof_Zone ≤ Arena.zone_base_size P := le_round_up_to _ _ hM hZ
  rw [hsize] at hn
  refine ⟨?_, (AllocZone_trace P this s w).1, Nat.le_add_right _ _, ?_, ?_⟩
  · rw [hrun]; rfl
  · have hle : Arena.zone_base_size P + s ≤ n := Nat.le_trans hreq hn
    rw [Nat.add_assoc]
    exact Nat.add_le_add_left hle _
  · exact Nat.add_le_add_left hhdr _

/-- C9 amended, on a 64-bit Linux build: `AllocZone(24)` given the 48-byte
block at 8192 returns 8208, and the 24 bytes from there end at 8232, inside
the block. -/
theorem C9_AllocZone_payload_witness :
    _aligned_alloc_size linux64 16 (Arena.AllocZone_alloc_size linux64 24) ≤ 48 ∧
    (Arena.AllocZone linux64 4096 24 (World.young [8192])).value? = some 8208 ∧
    8192 + 16 + 24 ≤ 8192 + 48 := by
  have h := C9_AllocZone_payload linux64 4096 24 (World.young [8192]) ⟨16, 64, 0⟩ 48
    (by decide) (by decide) (by decide) (by decide) (by decide) (by decide) (by decide)
  exact ⟨by decide, h.1, h.2.2.2.1⟩

end grpc_core
